import Mathlib

/-!
Verification of the profiling aggregation engine of the `perf-monitor`
repository (class `CPUProfileGenerator` in `src/core/cpuprofile-generator.ts`
and the orchestrator `PerformanceMonitor` in `src/core/performance-monitor.ts`).

The TypeScript code is shallowly embedded: JS numbers used as timestamps are
modelled as `Int` (the claims only involve ordering and exact `+`, `-`, `*1000`
arithmetic), JS arrays as `List`, JS `Map`/object maps as association lists
with first-match lookup (entries are only ever inserted when absent, so a
prepend-and-first-match association list is observationally identical),
`Array.prototype.sort` (a stable ascending sort) as `List.insertionSort`, and
JS exceptions as `Except String`.
-/

namespace PerfMonitor

/-- First-match association lookup, modelling JS `Map.get` / object indexing. -/
def assocLookup {α β : Type} [DecidableEq α] : List (α × β) → α → Option β
  | [], _ => none
  | (k, v) :: rest, key => if k = key then some v else assocLookup rest key

/-- `callFrame` of a profile node, from `src/types/index.ts` (`ProfileNode.callFrame`). -/
structure CallFrame where
  functionName : String
  scriptId : String
  url : String
  lineNumber : Int
  columnNumber : Int
deriving Repr, DecidableEq

/-- Profile node, from `src/types/index.ts` (`ProfileNode`); the optional
`marker`, `children`, `deoptReason`, `positionTicks` fields are never read by
the aggregation engine and are omitted. -/
structure ProfileNode where
  id : Nat
  callFrame : CallFrame
  hitCount : Nat
deriving Repr, DecidableEq

/-- `CPUProfile` from `src/types/index.ts`. -/
structure CPUProfile where
  nodes : List ProfileNode
  samples : List Nat
  timeDeltas : List Int
  startTime : Int
  endTime : Int
deriving Repr, DecidableEq

/-- `WorkerPerformanceData` from `src/types/index.ts`; only the fields read by
the generator (`workerId`, `functionName`, `startTime`, `endTime`) are kept. -/
structure WorkerPerformanceData where
  workerId : String
  functionName : String
  startTime : Int
  endTime : Int
deriving Repr, DecidableEq

/-- A frame of a Self-Profiling API trace (`ProfilerTrace.frames[i]`).
All fields may be absent in the loosely-typed input. -/
structure TraceFrame where
  name : Option String
  resourceId : Option Int
  line : Option Int
  column : Option Int
deriving Repr, DecidableEq

/-- A stack entry of a Self-Profiling API trace (`ProfilerTrace.stacks[i]`). -/
structure TraceStack where
  frameId : Option Nat
deriving Repr, DecidableEq

/-- A sample of a Self-Profiling API trace (`ProfilerTrace.samples[i]`). -/
structure TraceSample where
  timestamp : Int
  stackId : Nat
deriving Repr, DecidableEq

/-- `ProfilerTrace` (interface in `cpuprofile-generator.ts`): the `samples`,
`stacks` and `frames` arrays are all optional. -/
structure ProfilerTrace where
  frames : Option (List TraceFrame)
  stacksArr : Option (List TraceStack)
  samples : Option (List TraceSample)
deriving Repr, DecidableEq

/-- Mutable state of a `CPUProfileGenerator` between `reset()` calls:
`nodes`, `samples`, `timeDeltas`, `nodeMap`, `nodeIdCounter`, `scriptMap`,
`scriptIdCounter`, `startTime`. -/
structure GenState where
  nodes : List ProfileNode
  samples : List Nat
  timeDeltas : List Int
  nodeMap : List (String × Nat)
  nodeIdCounter : Nat
  scriptMap : List (String × String)
  scriptIdCounter : Nat
  startTime : Int
deriving Repr, DecidableEq

/-- State after `reset()` with `this.startTime = startTime`. -/
def initState (startTime : Int) : GenState :=
  { nodes := [], samples := [], timeDeltas := [], nodeMap := [],
    nodeIdCounter := 0, scriptMap := [], scriptIdCounter := 0,
    startTime := startTime }

/-- `CPUProfileGenerator.getScriptId`. -/
def getScriptId (st : GenState) (url : String) : String × GenState :=
  match assocLookup st.scriptMap url with
  | some sid => (sid, st)
  | none =>
    let sid := "script-" ++ toString st.scriptIdCounter
    (sid, { st with scriptMap := (url, sid) :: st.scriptMap,
                    scriptIdCounter := st.scriptIdCounter + 1 })

/-- `CPUProfileGenerator.getEmptyProfile`. -/
def getEmptyProfile (startTime endTime : Int) : CPUProfile :=
  { nodes := [], samples := [], timeDeltas := [],
    startTime := startTime, endTime := endTime }

/-- The effective function name of a trace frame: `frame.name || '(anonymous)'`
(both a missing and an empty name are falsy in JS). -/
def traceFrameName (f : TraceFrame) : String :=
  match f.name with
  | none => "(anonymous)"
  | some s => if s = "" then "(anonymous)" else s

/-- The url computed by `getOrCreateNode`:
`baseUrl = frame.resourceId !== undefined ? "script-" + resourceId : ""` and
`url = (threadName === 'Main Thread' ? "main-thread" : threadName) + "://" + (baseUrl || 'inline')`. -/
def traceFrameUrl (f : TraceFrame) (threadName : String) : String :=
  let baseUrl := match f.resourceId with
    | some rid => "script-" ++ toString rid
    | none => ""
  let tail := if baseUrl = "" then "inline" else baseUrl
  if threadName = "Main Thread" then "main-thread://" ++ tail
  else threadName ++ "://" ++ tail

/-- The dedup key built by `getOrCreateNode`:
`threadName :: functionName :: url :: line :: column` (string-concatenated). -/
def traceNodeKey (f : TraceFrame) (threadName : String) : String :=
  threadName ++ "::" ++ traceFrameName f ++ "::" ++ traceFrameUrl f threadName
    ++ "::" ++ toString (f.line.getD 0) ++ "::" ++ toString (f.column.getD 0)

/-- `CPUProfileGenerator.getOrCreateNode`: returns the interned node id and the
updated generator state. -/
def getOrCreateNode (st : GenState) (f : TraceFrame) (threadName : String) :
    Nat × GenState :=
  let functionName := traceFrameName f
  let url := traceFrameUrl f threadName
  let nodeKey := traceNodeKey f threadName
  match assocLookup st.nodeMap nodeKey with
  | some id => (id, st)
  | none =>
    let nodeId := st.nodeIdCounter
    let r := getScriptId st url
    let node : ProfileNode :=
      { id := nodeId,
        callFrame :=
          { functionName :=
              if threadName = "Main Thread" then functionName
              else "[" ++ threadName ++ "] " ++ functionName,
            scriptId := r.1, url := url,
            lineNumber := f.line.getD 0, columnNumber := f.column.getD 0 },
        hitCount := 1 }
    (nodeId, { r.2 with nodes := r.2.nodes ++ [node],
                        nodeMap := (nodeKey, nodeId) :: r.2.nodeMap,
                        nodeIdCounter := nodeId + 1 })

/-- The first loop of `processTrace`: `for (const frame of frames) this.getOrCreateNode(frame, threadName)`. -/
def internFrames (threadName : String) : GenState → List TraceFrame → GenState
  | st, [] => st
  | st, f :: fs => internFrames threadName (getOrCreateNode st f threadName).2 fs

/-- The samples loop of `processTrace`. A sample whose stack is missing or
whose stack has no `frameId` is skipped silently; a defined `frameId` that is
out of range of `frames` makes `getOrCreateNode` dereference `undefined`,
which throws a `TypeError` in JS, modelled as `Except.error`. -/
def processSamples (threadName : String) (frames : List TraceFrame)
    (stackArr : List TraceStack) (startTime : Int) :
    GenState → List TraceSample → Except String GenState
  | st, [] => .ok st
  | st, s :: rest =>
    match stackArr[s.stackId]? with
    | none => processSamples threadName frames stackArr startTime st rest
    | some stack =>
      match stack.frameId with
      | none => processSamples threadName frames stackArr startTime st rest
      | some fid =>
        match frames[fid]? with
        | none => .error "TypeError: Cannot read properties of undefined"
        | some f =>
          let r := getOrCreateNode st f threadName
          let st' := { r.2 with
            samples := r.2.samples ++ [r.1],
            timeDeltas := r.2.timeDeltas ++ [(s.timestamp - startTime) * 1000] }
          processSamples threadName frames stackArr startTime st' rest

/-- `CPUProfileGenerator.generateFromTrace`. JS falsiness: only a null trace or
missing `samples`/`stacks` arrays yield the empty profile (empty arrays are
truthy). -/
def generateFromTrace (trace : Option ProfilerTrace) (startTime endTime : Int)
    (threadName : String) : Except String CPUProfile :=
  match trace with
  | none => .ok (getEmptyProfile startTime endTime)
  | some t =>
    match t.samples, t.stacksArr with
    | some samplesArr, some stacksArr =>
      let framesArr := t.frames.getD []
      let st0 := initState startTime
      let st1 := internFrames threadName st0 framesArr
      match processSamples threadName framesArr stacksArr startTime st1 samplesArr with
      | .error msg => .error msg
      | .ok st2 =>
        .ok { nodes := st2.nodes, samples := st2.samples,
              timeDeltas := st2.timeDeltas,
              startTime := startTime, endTime := endTime }
    | _, _ => .ok (getEmptyProfile startTime endTime)

/-- Thread name used for worker records: `` `Worker-${workerId}` ``. -/
def workerThreadName (workerId : String) : String := "Worker-" ++ workerId

/-- Node dedup key built by `addWorkerPerformanceData`:
`` `${threadName}::${functionName}::${threadName}://${functionName}::0::0` ``. -/
def workerNodeKey (workerId functionName : String) : String :=
  let tn := workerThreadName workerId
  tn ++ "::" ++ functionName ++ "::" ++ tn ++ "://" ++ functionName ++ "::0::0"

/-- Increment the hit count of the first node with the given id, modelling
`this.nodes.find((n) => n.id === nodeId)` followed by a mutation. -/
def incrementFirst : List ProfileNode → Nat → List ProfileNode
  | [], _ => []
  | n :: ns, id =>
    if n.id = id then { n with hitCount := n.hitCount + 1 } :: ns
    else n :: incrementFirst ns id

/-- The node id a worker record resolves to in state `st`: the interned id for
its key if present, otherwise the fresh `nodeIdCounter`. -/
def resolveWorkerId (st : GenState) (workerId functionName : String) : Nat :=
  match assocLookup st.nodeMap (workerNodeKey workerId functionName) with
  | some id => id
  | none => st.nodeIdCounter

/-- `CPUProfileGenerator.addWorkerPerformanceData`. -/
def addWorkerPerformanceData (st : GenState) (d : WorkerPerformanceData)
    (workerId : String) : GenState :=
  let key := workerNodeKey workerId d.functionName
  let delta := (d.startTime - st.startTime) * 1000
  match assocLookup st.nodeMap key with
  | some nodeId =>
    { st with nodes := incrementFirst st.nodes nodeId,
              samples := st.samples ++ [nodeId],
              timeDeltas := st.timeDeltas ++ [delta] }
  | none =>
    let nodeId := st.nodeIdCounter
    let url := workerThreadName workerId ++ "://" ++ d.functionName
    let r := getScriptId st url
    let node : ProfileNode :=
      { id := nodeId,
        callFrame :=
          { functionName := "[" ++ workerThreadName workerId ++ "] " ++ d.functionName,
            scriptId := r.1, url := url, lineNumber := 0, columnNumber := 0 },
        hitCount := 1 }
    { r.2 with nodes := r.2.nodes ++ [node],
               nodeMap := (key, nodeId) :: r.2.nodeMap,
               nodeIdCounter := nodeId + 1,
               samples := r.2.samples ++ [nodeId],
               timeDeltas := r.2.timeDeltas ++ [delta] }

/-- The loop body of `normalizeTimeDeltas`, carrying `lastTime`. -/
def normGo (lastTime : Int) : List Int → List Int
  | [] => []
  | x :: xs =>
    let y := if x < lastTime then lastTime + 1 else x
    y :: normGo y xs

/-- `CPUProfileGenerator.normalizeTimeDeltas`: one pass with `lastTime`
initialised to `0`. -/
def normalizeTimeDeltas (l : List Int) : List Int := normGo 0 l

/-- Sort order used by `workerData.sort((a, b) => a.startTime - b.startTime)`. -/
def byStartWPD (a b : WorkerPerformanceData) : Prop := a.startTime ≤ b.startTime

instance : DecidableRel byStartWPD :=
  fun a b => inferInstanceAs (Decidable (a.startTime ≤ b.startTime))

instance : IsTotal WorkerPerformanceData byStartWPD :=
  ⟨fun a b => Int.le_total a.startTime b.startTime⟩

instance : IsTrans WorkerPerformanceData byStartWPD :=
  ⟨fun _ _ _ => Int.le_trans⟩

/-- `CPUProfileGenerator.generateFromSingleWorkerData`. JS `Array.prototype.sort`
sorts the caller's array in place (stable, ascending by the comparator) and
returns that same array; we model the mutation by returning, next to the
profile, the final contents of the array object passed by the caller. -/
def generateFromSingleWorkerData (workerData : List WorkerPerformanceData)
    (startTime endTime : Int) (workerId : String) :
    CPUProfile × List WorkerPerformanceData :=
  let sortedData := List.insertionSort byStartWPD workerData
  let st0 := initState startTime
  let st1 := sortedData.foldl (fun st d => addWorkerPerformanceData st d workerId) st0
  let tds := normalizeTimeDeltas st1.timeDeltas
  ({ nodes := st1.nodes, samples := st1.samples, timeDeltas := tds,
     startTime := startTime, endTime := endTime }, sortedData)

/-- Sort order used by `profiles.sort((a, b) => a.startTime - b.startTime)`. -/
def byStartProf (a b : CPUProfile) : Prop := a.startTime ≤ b.startTime

instance : DecidableRel byStartProf :=
  fun a b => inferInstanceAs (Decidable (a.startTime ≤ b.startTime))

instance : IsTotal CPUProfile byStartProf :=
  ⟨fun a b => Int.le_total a.startTime b.startTime⟩

instance : IsTrans CPUProfile byStartProf :=
  ⟨fun _ _ _ => Int.le_trans⟩

/-- Node-id remapping applied to a sample during `mergeProfiles`:
`nodeMapping.get(originalNodeId) || originalNodeId`, where `nodeMapping` maps
`node.id` to `nodeIdOffset + node.id` for every node of the profile. (When the
looked-up value is `0` — JS-falsy — the fallback returns the original id, which
is also `0`, so a membership test is an exact model.) -/
def remapSample (offset : Nat) (nodes : List ProfileNode) (i : Nat) : Nat :=
  if nodes.any (fun n => n.id == i) then offset + i else i

/-- The inner loop of `mergeProfiles` over one profile's samples: reads
`timeDeltas[i] || 0`, forms `adjustedDelta = timeOffset + originalDelta`,
bumps the cumulative clock, and appends to the merged `samples`/`timeDeltas`.
Returns the appended sample ids, the appended time deltas, and the final
cumulative clock. -/
def mergeLoop (mapId : Nat → Nat) (timeOffset : Int) :
    List Nat → List Int → Int → List Nat × List Int × Int
  | [], _, cum => ([], [], cum)
  | s :: ss, tds, cum =>
    let originalDelta := tds.headD 0
    let adjusted := timeOffset + originalDelta
    let newCum := if cum < adjusted then adjusted else cum + 1
    let r := mergeLoop mapId timeOffset ss tds.tail newCum
    (mapId s :: r.1, newCum :: r.2.1, r.2.2)

/-- Accumulator of the profile loop in `mergeProfiles`: the merged arrays plus
`nodeIdOffset` and `cumulativeTime`. -/
structure MergeState where
  nodes : List ProfileNode
  samples : List Nat
  timeDeltas : List Int
  nodeIdOffset : Nat
  cumulativeTime : Int
deriving Repr, DecidableEq

/-- One iteration of the profile loop of `mergeProfiles`. -/
def mergeOne (mergedStart : Int) (st : MergeState) (prof : CPUProfile) : MergeState :=
  let timeOffset := (prof.startTime - mergedStart) * 1000
  let newNodes := prof.nodes.map (fun n => { n with id := st.nodeIdOffset + n.id })
  let r := mergeLoop (remapSample st.nodeIdOffset prof.nodes) timeOffset
    prof.samples prof.timeDeltas st.cumulativeTime
  { nodes := st.nodes ++ newNodes,
    samples := st.samples ++ r.1,
    timeDeltas := st.timeDeltas ++ r.2.1,
    nodeIdOffset := st.nodeIdOffset + prof.nodes.length,
    cumulativeTime := r.2.2 }

/-- The freshly initialised `merged` accumulator of `mergeProfiles`. -/
def initMergeState : MergeState :=
  { nodes := [], samples := [], timeDeltas := [], nodeIdOffset := 0, cumulativeTime := 0 }

/-- `CPUProfileGenerator.mergeProfiles` on a non-empty list of profiles (the
body after the emptiness guard). -/
def mergeProfilesCore (p : CPUProfile) (ps : List CPUProfile) : CPUProfile :=
  let mergedStart := (ps.map (fun q => q.startTime)).foldl min p.startTime
  let mergedEnd := (ps.map (fun q => q.endTime)).foldl max p.endTime
  let sorted := List.insertionSort byStartProf (p :: ps)
  let final := sorted.foldl (mergeOne mergedStart) initMergeState
  { nodes := final.nodes, samples := final.samples, timeDeltas := final.timeDeltas,
    startTime := mergedStart, endTime := mergedEnd }

/-- `CPUProfileGenerator.mergeProfiles`: throws on an empty input list,
otherwise merges. -/
def mergeProfiles : List CPUProfile → Except String CPUProfile
  | [] => .error "Cannot merge empty profiles"
  | p :: ps => .ok (mergeProfilesCore p ps)

/-- Grouping key used by `generateFromWorkerData` and the orchestrator:
`data.workerId || 'unknown'` (the empty string is the only falsy string). -/
def workerKey (d : WorkerPerformanceData) : String :=
  if d.workerId = "" then "unknown" else d.workerId

/-- Keys of a JS `Map` built by insertion: first-occurrence order, deduplicated. -/
def dedupKeys (seen : List String) : List String → List String
  | [] => []
  | k :: ks => if k ∈ seen then dedupKeys seen ks else k :: dedupKeys (k :: seen) ks

/-- `CPUProfileGenerator.generateFromWorkerData`: groups records by
`workerId || 'unknown'` (a JS `Map` preserves first-occurrence key order and
per-group record order), generates one profile per group, and merges when there
are several groups. Only the produced profile is returned here; the in-place
sort performed on each group array by `generateFromSingleWorkerData` does not
affect the caller-visible result modelled by the claims about this function. -/
def generateFromWorkerData (workerData : List WorkerPerformanceData)
    (startTime endTime : Int) : CPUProfile :=
  let keys := dedupKeys [] (workerData.map workerKey)
  match keys with
  | [] => getEmptyProfile startTime endTime
  | [k] =>
    (generateFromSingleWorkerData (workerData.filter (fun d => workerKey d = k))
      startTime endTime k).1
  | k1 :: k2 :: krest =>
    let profs := (k1 :: k2 :: krest).map (fun k =>
      (generateFromSingleWorkerData (workerData.filter (fun d => workerKey d = k))
        startTime endTime k).1)
    match profs with
    | [] => getEmptyProfile startTime endTime
    | [q] => q
    | q :: qs => mergeProfilesCore q qs

/-- The tail of `PerformanceMonitor.generateProfile` after both per-source
profiles have been built: return `null` with no profiles, the single profile
as-is, or the merge of several. -/
def finishGenerateProfile (profiles : List CPUProfile) :
    Except String (Option CPUProfile) :=
  match profiles with
  | [] => .ok none
  | [p] => .ok (some p)
  | ps => (mergeProfiles ps).map some

/-- `PerformanceMonitor.generateProfile`: builds a main-thread profile from the
sampled trace when one exists, a worker profile when any worker telemetry was
added (kept only when it has nodes or samples), and merges. `this.startTime`
and the collected buffers are parameters of the embedding. -/
def generateProfile (startTime : Int) (trace : Option ProfilerTrace)
    (workerData : List WorkerPerformanceData) (endTime : Int) :
    Except String (Option CPUProfile) :=
  let workerPart : List CPUProfile :=
    if workerData.length > 0 then
      let wp := generateFromWorkerData workerData startTime endTime
      if wp.nodes.length > 0 ∨ wp.samples.length > 0 then [wp] else []
    else []
  match trace with
  | some t =>
    match generateFromTrace (some t) startTime endTime "Main Thread" with
    | .error msg => .error msg
    | .ok mainP => finishGenerateProfile ([mainP] ++ workerPart)
  | none => finishGenerateProfile workerPart

/-- A frame of the Speedscope shared frame table. -/
structure SpeedFrame where
  name : String
  file : String
  line : Int
  col : Int
deriving Repr, DecidableEq

/-- An event of a Speedscope `evented` track; `etype` is the `type` field,
`'O'` for open and `'C'` for close, and `atTime` is the `at` field (`at` is a
reserved word in Lean). -/
structure SpeedEvent where
  etype : Char
  atTime : Int
  frame : Nat
deriving Repr, DecidableEq

/-- Strip the `` `[${threadName}] ` `` tag from a node's function name
(`originalFunctionName.startsWith(threadPrefix) ? substring : unchanged`). -/
def stripThreadTag (tag name : String) : String :=
  if tag.isPrefixOf name then name.drop tag.length else name

/-- Fixed per-worker context of the evented-track loop of
`generateSpeedscopeFormat`: the worker's profile data, the
`nodeId -> frameId` map (`threadMap`), the function-name tag, the worker id,
and the corrected time base `actualStartTime`. -/
structure EvContext where
  profileNodes : List ProfileNode
  profileSamples : List Nat
  threadMap : List (Nat × Nat)
  threadTag : String
  workerId : String
  actualStartTime : Int

/-- Mutable state threaded through the evented-track loop: the shared frame
table, the shared `frameMap`, the `functionNameToFrameId` map, and the
worker's `eventList`. -/
structure EvState where
  frames : List SpeedFrame
  frameMap : List (String × Nat)
  fnMap : List (String × Nat)
  events : List SpeedEvent
deriving Repr, DecidableEq

/-- The fallback search over `profile.samples`: find the first sampled node
whose (tag-stripped) function name matches and that has a `threadMap` entry. -/
def sampleSearch (ctx : EvContext) (fname : String) : List Nat → Option Nat
  | [] => none
  | s :: rest =>
    match ctx.profileNodes.find? (fun n => n.id == s) with
    | none => sampleSearch ctx fname rest
    | some node =>
      if stripThreadTag ctx.threadTag node.callFrame.functionName = fname then
        match assocLookup ctx.threadMap node.id with
        | some fid => some fid
        | none => sampleSearch ctx fname rest
      else sampleSearch ctx fname rest

/-- Whether a worker record's open/close pair is emitted:
`startAt >= 0 && endAt >= startAt` for
`startAt = (startTime - actualStartTime) * 1000` and
`endAt = (endTime - actualStartTime) * 1000`. -/
def emitCond (actualStartTime : Int) (d : WorkerPerformanceData) : Prop :=
  0 ≤ (d.startTime - actualStartTime) * 1000 ∧
    (d.startTime - actualStartTime) * 1000 ≤ (d.endTime - actualStartTime) * 1000

instance (actualStartTime : Int) (d : WorkerPerformanceData) :
    Decidable (emitCond actualStartTime d) :=
  inferInstanceAs (Decidable (_ ∧ _))

/-- Append a record's open/close pair when its times are valid, else drop it
(with only a logged warning in the source). -/
def pushPair (ast : Int) (d : WorkerPerformanceData) (fid : Nat)
    (evs : List SpeedEvent) : List SpeedEvent :=
  if emitCond ast d then
    evs ++ [{ etype := 'O', atTime := (d.startTime - ast) * 1000, frame := fid },
            { etype := 'C', atTime := (d.endTime - ast) * 1000, frame := fid }]
  else evs

/-- One iteration of the per-record loop of the evented path of
`generateSpeedscopeFormat`: resolve a frame id through
`functionNameToFrameId`, then the sample search, then frame creation — every
record obtains a frame id — and emit the open/close pair if and only if the
computed times are valid. -/
def evStep (ctx : EvContext) (st : EvState) (d : WorkerPerformanceData) : EvState :=
  match assocLookup st.fnMap d.functionName with
  | some fid => { st with events := pushPair ctx.actualStartTime d fid st.events }
  | none =>
    match sampleSearch ctx d.functionName ctx.profileSamples with
    | some fid =>
      { st with fnMap := (d.functionName, fid) :: st.fnMap,
                events := pushPair ctx.actualStartTime d fid st.events }
    | none =>
      let newId := st.frames.length
      let file := "worker-" ++ ctx.workerId ++ "://" ++ d.functionName
      let newKey := d.functionName ++ "::" ++ file ++ "::0::0"
      { st with
        frames := st.frames ++ [{ name := d.functionName, file := file, line := 0, col := 0 }],
        frameMap := (newKey, newId) :: st.frameMap,
        fnMap := (d.functionName, newId) :: st.fnMap,
        events := pushPair ctx.actualStartTime d newId st.events }

/-- Sort order used by `eventList.sort((a, b) => a.at - b.at)`. -/
def byAt (a b : SpeedEvent) : Prop := a.atTime ≤ b.atTime

instance : DecidableRel byAt :=
  fun a b => inferInstanceAs (Decidable (a.atTime ≤ b.atTime))

instance : IsTotal SpeedEvent byAt := ⟨fun a b => Int.le_total a.atTime b.atTime⟩

instance : IsTrans SpeedEvent byAt := ⟨fun _ _ _ => Int.le_trans⟩

/-- The `events` array of the worker's `evented` track: the per-record loop
followed by the ascending sort by `at`. -/
def eventedTrackEvents (ctx : EvContext) (st : EvState)
    (workerData : List WorkerPerformanceData) : List SpeedEvent :=
  List.insertionSort byAt (workerData.foldl (evStep ctx) st).events

/-! ## Helper lemmas about the normalization pass -/

theorem normGo_length (last : Int) (l : List Int) :
    (normGo last l).length = l.length := by
  induction l generalizing last with
  | nil => rfl
  | cons x xs ih => simp [normGo, ih]

theorem normGo_chain (last : Int) (l : List Int) :
    List.Chain' (· ≤ ·) (last :: normGo last l) := by
  induction l generalizing last with
  | nil => simp [normGo]
  | cons x xs ih =>
    simp only [normGo]
    refine List.Chain'.cons ?_ (ih _)
    by_cases h : x < last
    · simp [h]
    · simp [h, le_of_not_lt, not_lt.mp h]

theorem normGo_getD (last : Int) (l : List Int) (i : Nat) (hi : i < l.length) :
    (normGo last l).getD i 0 =
      (if l.getD i 0 < (if i = 0 then last else (normGo last l).getD (i - 1) 0)
       then (if i = 0 then last else (normGo last l).getD (i - 1) 0) + 1
       else l.getD i 0) := by
  induction l generalizing last i with
  | nil => simp at hi
  | cons x xs ih =>
    cases i with
    | zero => simp [normGo]
    | succ j =>
      have hj : j < xs.length := Nat.lt_of_succ_lt_succ hi
      cases j with
      | zero =>
        have h0 : 0 < xs.length := hj
        have := ih (if x < last then last + 1 else x) 0 h0
        simpa [normGo] using this
      | succ k =>
        have := ih (if x < last then last + 1 else x) (k + 1) hj
        simpa [normGo] using this

/-! ## Claim C4 -/

/-- Modelled from the claim text of C4 (spec §4.2): a normalization pass that
walks `timeDeltas` once, replaces exactly those values that are less than
their predecessor with `predecessor + 1`, and leaves a first element, which
has no predecessor, unchanged. -/
def claimNormalize : List Int → List Int
  | [] => []
  | x :: xs => x :: normGo x xs

/-- Counterexample to C4 as stated: the source initialises `lastTime` to `0`,
so a negative first element is rewritten to `1`, although it has no
predecessor; the claimed pass would leave it unchanged. The input is reachable
from `generateFromSingleWorkerData` with a record starting before the
profile's `startTime`. -/
theorem claim_C4_cex :
    normalizeTimeDeltas [-1000] = [1] ∧
    claimNormalize [-1000] = [-1000] ∧
    normalizeTimeDeltas [-1000] ≠ claimNormalize [-1000] ∧
    ((generateFromSingleWorkerData
        [{ workerId := "w", functionName := "f", startTime := -1, endTime := 2 }]
        0 10 "w").1).timeDeltas = [1] := by
  refine ⟨rfl, rfl, by decide, rfl⟩

/-- C4, amended: the normalization pass of `normalizeTimeDeltas` walks the
array once and replaces exactly those values that are less than the running
predecessor — initialised to `0` before the first element, so a negative first
element is also replaced — with `predecessor + 1`, leaving every other value
unchanged, and it preserves the length. -/
theorem claim_C4 (l : List Int) :
    (normalizeTimeDeltas l).length = l.length ∧
    ∀ i, i < l.length →
      (normalizeTimeDeltas l).getD i 0 =
        (if l.getD i 0 < (if i = 0 then 0 else (normalizeTimeDeltas l).getD (i - 1) 0)
         then (if i = 0 then 0 else (normalizeTimeDeltas l).getD (i - 1) 0) + 1
         else l.getD i 0) := by
  refine ⟨normGo_length 0 l, fun i hi => normGo_getD 0 l i hi⟩

/-- Witness for C4 at the concrete input `[3, -7, 5]`. -/
theorem claim_C4_witness :
    (normalizeTimeDeltas [3, -7, 5]).length = 3 ∧
    (normalizeTimeDeltas [3, -7, 5]).getD 1 0 =
      (if ([3, -7, 5] : List Int).getD 1 0 < (normalizeTimeDeltas [3, -7, 5]).getD 0 0
       then (normalizeTimeDeltas [3, -7, 5]).getD 0 0 + 1
       else ([3, -7, 5] : List Int).getD 1 0) := by
  refine ⟨(claim_C4 [3, -7, 5]).1, ?_⟩
  simpa using (claim_C4 [3, -7, 5]).2 1 (by decide)

/-! ## Claim C6 -/

/-- C6: `mergeProfiles` raises exactly on the empty input list; every
non-empty input yields a merged profile with no error. -/
theorem claim_C6 :
    (∀ ps : List CPUProfile,
      (∃ msg, mergeProfiles ps = Except.error msg) ↔ ps = []) ∧
    ∀ (p : CPUProfile) (ps : List CPUProfile),
      ∃ m, mergeProfiles (p :: ps) = Except.ok m := by
  constructor
  · intro ps
    constructor
    · rintro ⟨msg, h⟩
      cases ps with
      | nil => rfl
      | cons p ps => simp [mergeProfiles] at h
    · rintro rfl
      exact ⟨"Cannot merge empty profiles", rfl⟩
  · intro p ps
    exact ⟨mergeProfilesCore p ps, rfl⟩

/-! ## Claim C8 -/

/-- C8: with no sampled trace and no collected worker telemetry,
`PerformanceMonitor.generateProfile` returns `null` and raises no error. -/
theorem claim_C8 (startTime endTime : Int) :
    generateProfile startTime none [] endTime = Except.ok none := rfl

/-! ## Claim C10 -/

/-- C10: `generateFromSingleWorkerData` permutes the caller's records array in
place into ascending `startTime` order (the records themselves are preserved,
merely reordered), and on at least one input the array differs from the one
passed in, so the builder has a side effect on its argument. -/
theorem claim_C10 :
    (∀ wd (startTime endTime : Int) wid,
      ((generateFromSingleWorkerData wd startTime endTime wid).2).Perm wd ∧
      List.Sorted byStartWPD (generateFromSingleWorkerData wd startTime endTime wid).2) ∧
    (generateFromSingleWorkerData
        [{ workerId := "w", functionName := "f", startTime := 5, endTime := 6 },
         { workerId := "w", functionName := "g", startTime := 3, endTime := 4 }]
        0 10 "w").2 ≠
      [{ workerId := "w", functionName := "f", startTime := 5, endTime := 6 },
       { workerId := "w", functionName := "g", startTime := 3, endTime := 4 }] := by
  constructor
  · intro wd startTime endTime wid
    exact ⟨List.perm_insertionSort byStartWPD wd,
           List.sorted_insertionSort byStartWPD wd⟩
  · decide

/-! ## Helper lemmas about the trace path -/

theorem getScriptId_fields (st : GenState) (url : String) :
    ((getScriptId st url).2).samples = st.samples ∧
    ((getScriptId st url).2).timeDeltas = st.timeDeltas := by
  unfold getScriptId
  cases h : assocLookup st.scriptMap url <;> simp [h]

theorem getOrCreateNode_fields (st : GenState) (f : TraceFrame) (tn : String) :
    ((getOrCreateNode st f tn).2).samples = st.samples ∧
    ((getOrCreateNode st f tn).2).timeDeltas = st.timeDeltas := by
  unfold getOrCreateNode
  cases h : assocLookup st.nodeMap (traceNodeKey f tn) <;>
    simp [h, (getScriptId_fields st (traceFrameUrl f tn)).1,
          (getScriptId_fields st (traceFrameUrl f tn)).2]

theorem internFrames_fields (tn : String) (fs : List TraceFrame) :
    ∀ st : GenState, (internFrames tn st fs).samples = st.samples ∧
      (internFrames tn st fs).timeDeltas = st.timeDeltas := by
  induction fs with
  | nil => intro st; exact ⟨rfl, rfl⟩
  | cons f fs ih =>
    intro st
    have h := getOrCreateNode_fields st f tn
    have h2 := ih (getOrCreateNode st f tn).2
    exact ⟨h2.1.trans h.1, h2.2.trans h.2⟩

/-- Whether `processTrace` emits a sample: its stack exists and carries a
defined `frameId`. -/
def traceEmit (stackArr : List TraceStack) (s : TraceSample) : Bool :=
  (stackArr[s.stackId]?.bind (fun stack => stack.frameId)).isSome

theorem processSamples_ok (tn : String) (frames : List TraceFrame)
    (stackArr : List TraceStack) (t0 : Int) :
    ∀ (ss : List TraceSample) (st st' : GenState),
      processSamples tn frames stackArr t0 st ss = Except.ok st' →
      st'.timeDeltas = st.timeDeltas ++
        (ss.filter (traceEmit stackArr)).map (fun s => (s.timestamp - t0) * 1000) ∧
      st'.samples.length = st.samples.length + (ss.filter (traceEmit stackArr)).length := by
  intro ss
  induction ss with
  | nil =>
    intro st st' h
    simp only [processSamples] at h
    cases h
    simp
  | cons s rest ih =>
    intro st st' h
    cases h1 : stackArr[s.stackId]? with
    | none =>
      simp only [processSamples, h1] at h
      have hr := ih st st' h
      simp only [List.filter_cons]
      simpa [traceEmit, h1] using hr
    | some stack =>
      cases h2 : stack.frameId with
      | none =>
        simp only [processSamples, h1, h2] at h
        have hr := ih st st' h
        simp only [List.filter_cons]
        simpa [traceEmit, h1, h2] using hr
      | some fid =>
        cases h3 : frames[fid]? with
        | none =>
          simp only [processSamples, h1, h2, h3] at h
          exact absurd h (by simp)
        | some f =>
          simp only [processSamples, h1, h2, h3] at h
          have hr := ih _ st' h
          have hfields := getOrCreateNode_fields st f tn
          have hemit : traceEmit stackArr s = true := by simp [traceEmit, h1, h2]
          simp only [List.filter_cons, hemit, if_true, List.map_cons, List.length_cons]
          constructor
          · rw [hr.1]
            simp [hfields.2, List.append_assoc]
          · rw [hr.2]
            simp [hfields.1]
            omega

/-! ## Claim C1 -/

/-- A trace whose two samples carry out-of-order timestamps. -/
def cexTrace : ProfilerTrace :=
  { frames := some [{ name := some "f", resourceId := none, line := none, column := none }],
    stacksArr := some [{ frameId := some 0 }],
    samples := some [{ timestamp := 10, stackId := 0 }, { timestamp := 5, stackId := 0 }] }

/-- Counterexample to C1 as stated: `generateFromTrace` contains no
normalization pass, so a trace whose sample timestamps are out of order
produces a profile whose `timeDeltas` decrease. -/
theorem claim_C1_cex :
    (generateFromTrace (some cexTrace) 0 20 "Main Thread").map (fun p => p.timeDeltas) =
      Except.ok [10000, 5000] ∧
    ¬ List.Chain' (· ≤ ·) [(10000 : Int), 5000] := by
  refine ⟨rfl, ?_⟩
  norm_num [List.chain'_cons]

/-- C1, amended: every profile produced by `generateFromSingleWorkerData` has
non-decreasing `timeDeltas` regardless of record order or clock skew (the
records are sorted and then normalized); a profile produced by
`generateFromTrace` copies sample timestamps without any normalization, so its
`timeDeltas` are non-decreasing when the trace's sample timestamps are
non-decreasing, but not in general. -/
theorem claim_C1 :
    (∀ wd (startTime endTime : Int) wid,
      List.Chain' (· ≤ ·)
        ((generateFromSingleWorkerData wd startTime endTime wid).1).timeDeltas) ∧
    (∀ (tr : ProfilerTrace) (startTime endTime : Int) (tn : String) (p : CPUProfile),
      generateFromTrace (some tr) startTime endTime tn = Except.ok p →
      List.Pairwise (fun a b => a.timestamp ≤ b.timestamp) (tr.samples.getD []) →
      List.Chain' (· ≤ ·) p.timeDeltas) := by
  constructor
  · intro wd startTime endTime wid
    exact (normGo_chain 0 _).tail
  · intro tr startTime endTime tn p hok hpw
    simp only [generateFromTrace] at hok
    split at hok
    case h_2 => 
      cases hok
      simp [getEmptyProfile]
    case h_1 samplesArr stackA hs hst =>
      split at hok
      case h_1 => exact absurd hok (by simp)
      case h_2 st2 hp =>
        cases hok
        have hchar := processSamples_ok tn (tr.frames.getD []) stackA startTime
          samplesArr _ st2 hp
        have hbase : (internFrames tn (initState startTime) (tr.frames.getD [])).timeDeltas = [] :=
          (internFrames_fields tn (tr.frames.getD []) (initState startTime)).2
        have htds : st2.timeDeltas =
            (samplesArr.filter (traceEmit stackA)).map
              (fun s => (s.timestamp - startTime) * 1000) := by
          rw [hchar.1, hbase, List.nil_append]
        show List.Chain' (· ≤ ·) st2.timeDeltas
        rw [htds]
        rw [hs] at hpw
        simp only [Option.getD_some] at hpw
        have hpf : List.Pairwise (fun a b : TraceSample => a.timestamp ≤ b.timestamp)
            (samplesArr.filter (traceEmit stackA)) :=
          hpw.sublist (List.filter_sublist samplesArr)
        have hpm : List.Pairwise (· ≤ ·)
            ((samplesArr.filter (traceEmit stackA)).map
              (fun s => (s.timestamp - startTime) * 1000)) := by
          rw [List.pairwise_map]
          refine hpf.imp ?_
          intro a b hab
          have := sub_le_sub_right hab startTime
          exact mul_le_mul_of_nonneg_right this (by norm_num)
        exact List.chain'_iff_pairwise.mpr hpm

/-- A trace whose two samples carry ascending timestamps. -/
def witTraceC1 : ProfilerTrace :=
  { frames := some [{ name := some "f", resourceId := none, line := none, column := none }],
    stacksArr := some [{ frameId := some 0 }],
    samples := some [{ timestamp := 5, stackId := 0 }, { timestamp := 10, stackId := 0 }] }

/-- The profile `generateFromTrace` produces from `witTraceC1`. -/
def witProfileC1 : CPUProfile :=
  { nodes := [{ id := 0,
                callFrame := { functionName := "f", scriptId := "script-0",
                               url := "main-thread://inline", lineNumber := 0,
                               columnNumber := 0 },
                hitCount := 1 }],
    samples := [0, 0], timeDeltas := [5000, 10000], startTime := 0, endTime := 20 }

/-- Witness for C1 on a concrete in-order trace. -/
theorem claim_C1_witness : List.Chain' (· ≤ ·) witProfileC1.timeDeltas :=
  claim_C1.2 witTraceC1 0 20 "Main Thread" witProfileC1 (by rfl)
    (by norm_num [List.pairwise_cons, witTraceC1])

/-! ## Helper lemmas about folded min/max -/

theorem foldl_min_le_init (l : List Int) (a : Int) : l.foldl min a ≤ a := by
  induction l generalizing a with
  | nil => simp
  | cons x xs ih => exact le_trans (ih (min a x)) (min_le_left a x)

theorem foldl_min_le_mem (l : List Int) (a : Int) : ∀ x ∈ l, l.foldl min a ≤ x := by
  induction l generalizing a with
  | nil => simp
  | cons y ys ih =>
    intro x hx
    rcases List.mem_cons.mp hx with rfl | hx'
    · exact le_trans (foldl_min_le_init ys (min a x)) (min_le_right a x)
    · exact ih (min a y) x hx'

theorem foldl_min_mem (l : List Int) (a : Int) :
    l.foldl min a = a ∨ l.foldl min a ∈ l := by
  induction l generalizing a with
  | nil => left; rfl
  | cons y ys ih =>
    rcases ih (min a y) with h | h
    · rcases min_choice a y with hm | hm
      · left; rw [List.foldl_cons, h, hm]
      · right; rw [List.foldl_cons, h, hm]; exact List.mem_cons_self y ys
    · right; exact List.mem_cons_of_mem y h

theorem le_foldl_max_init (l : List Int) (a : Int) : a ≤ l.foldl max a := by
  induction l generalizing a with
  | nil => simp
  | cons x xs ih => exact le_trans (le_max_left a x) (ih (max a x))

theorem le_foldl_max_mem (l : List Int) (a : Int) : ∀ x ∈ l, x ≤ l.foldl max a := by
  induction l generalizing a with
  | nil => simp
  | cons y ys ih =>
    intro x hx
    rcases List.mem_cons.mp hx with rfl | hx'
    · exact le_trans (le_max_right a x) (le_foldl_max_init ys (max a x))
    · exact ih (max a y) x hx'

theorem foldl_max_mem (l : List Int) (a : Int) :
    l.foldl max a = a ∨ l.foldl max a ∈ l := by
  induction l generalizing a with
  | nil => left; rfl
  | cons y ys ih =>
    rcases ih (max a y) with h | h
    · rcases max_choice a y with hm | hm
      · left; rw [List.foldl_cons, h, hm]
      · right; rw [List.foldl_cons, h, hm]; exact List.mem_cons_self y ys
    · right; exact List.mem_cons_of_mem y h

/-! ## Helper lemmas about the merge loop -/

theorem mergeLoop_samples (f : Nat → Nat) (off : Int) :
    ∀ (ss : List Nat) (tds : List Int) (c : Int),
      (mergeLoop f off ss tds c).1 = ss.map f := by
  intro ss
  induction ss with
  | nil => intro tds c; rfl
  | cons x xs ih => intro tds c; simp [mergeLoop, ih]

theorem mergeLoop_len (f : Nat → Nat) (off : Int) :
    ∀ (ss : List Nat) (tds : List Int) (c : Int),
      ((mergeLoop f off ss tds c).2.1).length = ss.length := by
  intro ss
  induction ss with
  | nil => intro tds c; rfl
  | cons x xs ih => intro tds c; simp [mergeLoop, ih]

theorem mergeLoop_mono (f : Nat → Nat) (off : Int) :
    ∀ (ss : List Nat) (tds : List Int) (c : Int),
      c ≤ (mergeLoop f off ss tds c).2.2 ∧
      List.Chain' (· < ·) (c :: (mergeLoop f off ss tds c).2.1) ∧
      ∀ x ∈ (mergeLoop f off ss tds c).2.1, x ≤ (mergeLoop f off ss tds c).2.2 := by
  intro ss
  induction ss with
  | nil => intro tds c; refine ⟨le_refl c, by simp [mergeLoop], by simp [mergeLoop]⟩
  | cons x xs ih =>
    intro tds c
    have hlt : c < (if c < off + tds.headD 0 then off + tds.headD 0 else c + 1) := by
      by_cases h : c < off + tds.headD 0
      · rw [if_pos h]; exact h
      · rw [if_neg h]; exact lt_add_one c
    obtain ⟨ih1, ih2, ih3⟩ :=
      ih tds.tail (if c < off + tds.headD 0 then off + tds.headD 0 else c + 1)
    refine ⟨le_trans (le_of_lt hlt) ih1, ?_, ?_⟩
    · exact List.Chain'.cons hlt ih2
    · intro y hy
      rcases List.mem_cons.mp hy with rfl | hy'
      · exact ih1
      · exact ih3 y hy'

theorem chain_lt_append :
    ∀ (old : List Int) (a c : Int) (ts : List Int),
      List.Chain' (· < ·) (a :: old) → (∀ x ∈ old, x ≤ c) → a ≤ c →
      List.Chain' (· < ·) (c :: ts) → List.Chain' (· < ·) (a :: (old ++ ts)) := by
  intro old
  induction old with
  | nil =>
    intro a c ts _ _ hac hcts
    cases ts with
    | nil => simp
    | cons t ts' =>
      have h := List.chain'_cons.mp hcts
      exact List.chain'_cons.mpr ⟨lt_of_le_of_lt hac h.1, h.2⟩
  | cons x old' ih =>
    intro a c ts hchain hle hac hcts
    have h := List.chain'_cons.mp hchain
    refine List.chain'_cons.mpr ⟨h.1, ?_⟩
    exact ih x c ts h.2 (fun y hy => hle y (List.mem_cons_of_mem x hy))
      (hle x (List.mem_cons_self x old')) hcts

/-- Invariant of the `mergeProfiles` profile loop: the merged `timeDeltas` are
positive and strictly increasing, and all of them are bounded by the running
cumulative clock, which is non-negative. -/
def MergeInv (st : MergeState) : Prop :=
  List.Chain' (· < ·) (0 :: st.timeDeltas) ∧
  (∀ x ∈ st.timeDeltas, x ≤ st.cumulativeTime) ∧
  0 ≤ st.cumulativeTime

theorem mergeOne_inv (m : Int) (st : MergeState) (q : CPUProfile)
    (h : MergeInv st) : MergeInv (mergeOne m st q) := by
  obtain ⟨hc, hle, h0⟩ := h
  obtain ⟨m1, m2, m3⟩ := mergeLoop_mono (remapSample st.nodeIdOffset q.nodes)
    ((q.startTime - m) * 1000) q.samples q.timeDeltas st.cumulativeTime
  refine ⟨?_, ?_, le_trans h0 m1⟩
  · exact chain_lt_append st.timeDeltas 0 st.cumulativeTime _ hc hle h0 m2
  · intro x hx
    rcases List.mem_append.mp hx with hx' | hx'
    · exact le_trans (hle x hx') m1
    · exact m3 x hx'

theorem foldl_mergeOne_inv (m : Int) (profs : List CPUProfile) :
    ∀ st : MergeState, MergeInv st → MergeInv (profs.foldl (mergeOne m) st) := by
  induction profs with
  | nil => intro st h; exact h
  | cons q qs ih => intro st h; exact ih (mergeOne m st q) (mergeOne_inv m st q h)

/-! ## The merge recurrence as described by the claim -/

/-- Modelled from the claim text of C2 (spec §4.3, step 4): for one profile's
block, each appended value equals `timeOffset + originalDelta` when that
strictly exceeds the running cumulative clock, and `cumulative + 1` otherwise. -/
def specDeltaBlock (timeOffset : Int) : Nat → List Int → Int → List Int × Int
  | 0, _, cum => ([], cum)
  | n + 1, tds, cum =>
    let adjusted := timeOffset + tds.headD 0
    let c := if cum < adjusted then adjusted else cum + 1
    let r := specDeltaBlock timeOffset n tds.tail c
    (c :: r.1, r.2)

/-- Modelled from the claim text of C2: process the profiles in ascending
`startTime` order, each with `timeOffset = (startTime - mergedStart) * 1000`,
threading the cumulative clock through the blocks. -/
def specMergeRun (mergedStart : Int) : List CPUProfile → Int → List Int × Int
  | [], cum => ([], cum)
  | q :: qs, cum =>
    let r := specDeltaBlock ((q.startTime - mergedStart) * 1000)
      q.samples.length q.timeDeltas cum
    let rest := specMergeRun mergedStart qs r.2
    (r.1 ++ rest.1, rest.2)

theorem mergeLoop_spec (f : Nat → Nat) (off : Int) :
    ∀ (ss : List Nat) (tds : List Int) (c : Int),
      (mergeLoop f off ss tds c).2.1 = (specDeltaBlock off ss.length tds c).1 ∧
      (mergeLoop f off ss tds c).2.2 = (specDeltaBlock off ss.length tds c).2 := by
  intro ss
  induction ss with
  | nil => intro tds c; exact ⟨rfl, rfl⟩
  | cons x xs ih =>
    intro tds c
    obtain ⟨h1, h2⟩ := ih tds.tail (if c < off + tds.headD 0 then off + tds.headD 0 else c + 1)
    constructor
    · simp only [mergeLoop, List.length_cons, specDeltaBlock]
      exact congrArg _ h1
    · simpa only [mergeLoop, List.length_cons, specDeltaBlock] using h2

theorem foldl_mergeOne_run (m : Int) (profs : List CPUProfile) :
    ∀ st : MergeState,
      (profs.foldl (mergeOne m) st).timeDeltas =
        st.timeDeltas ++ (specMergeRun m profs st.cumulativeTime).1 ∧
      (profs.foldl (mergeOne m) st).cumulativeTime =
        (specMergeRun m profs st.cumulativeTime).2 := by
  induction profs with
  | nil => intro st; simp [specMergeRun]
  | cons q qs ih =>
    intro st
    obtain ⟨ih1, ih2⟩ := ih (mergeOne m st q)
    obtain ⟨s1, s2⟩ := mergeLoop_spec (remapSample st.nodeIdOffset q.nodes)
      ((q.startTime - m) * 1000) q.samples q.timeDeltas st.cumulativeTime
    constructor
    · rw [List.foldl_cons, ih1]
      show (st.timeDeltas ++ _) ++ _ = _
      rw [List.append_assoc]
      refine congrArg _ ?_
      show (mergeLoop _ _ _ _ _).2.1 ++ _ = (specMergeRun m (q :: qs) st.cumulativeTime).1
      simp only [specMergeRun]
      rw [s1, show (mergeOne m st q).cumulativeTime = _ from s2]
    · rw [List.foldl_cons, ih2]
      show _ = (specMergeRun m (q :: qs) st.cumulativeTime).2
      simp only [specMergeRun]
      rw [show (mergeOne m st q).cumulativeTime = _ from s2]

theorem mergeOne_samples (m : Int) (st : MergeState) (q : CPUProfile) :
    (mergeOne m st q).samples =
      st.samples ++ q.samples.map (remapSample st.nodeIdOffset q.nodes) := by
  simp [mergeOne, mergeLoop_samples]

theorem mergeOne_offset (m : Int) (st : MergeState) (q : CPUProfile) :
    (mergeOne m st q).nodeIdOffset = st.nodeIdOffset + q.nodes.length := rfl

theorem foldl_mergeOne_lens (m : Int) (profs : List CPUProfile) :
    ∀ st : MergeState, st.samples.length = st.timeDeltas.length →
      (profs.foldl (mergeOne m) st).samples.length =
        (profs.foldl (mergeOne m) st).timeDeltas.length := by
  induction profs with
  | nil => intro st h; exact h
  | cons q qs ih =>
    intro st h
    refine ih (mergeOne m st q) ?_
    show ((mergeOne m st q).samples).length = ((mergeOne m st q).timeDeltas).length
    rw [mergeOne_samples]
    show _ = (st.timeDeltas ++ (mergeLoop _ _ _ _ _).2.1).length
    simp [mergeLoop_len, h]

/-! ## Claim C2 -/

/-- C2: a merged profile's `startTime` is the minimum and `endTime` the
maximum over the inputs; its `timeDeltas` are strictly increasing (indeed
strictly above `0`); and they are exactly the values produced by processing
the profiles in ascending `startTime` order with the documented recurrence:
each appended value is `timeOffset + originalDelta` when that strictly exceeds
the running cumulative clock, and `cumulative + 1` otherwise. -/
theorem claim_C2 (p : CPUProfile) (ps : List CPUProfile) (m : CPUProfile)
    (h : mergeProfiles (p :: ps) = Except.ok m) :
    (∀ q ∈ p :: ps, m.startTime ≤ q.startTime) ∧
    m.startTime ∈ (p :: ps).map CPUProfile.startTime ∧
    (∀ q ∈ p :: ps, q.endTime ≤ m.endTime) ∧
    m.endTime ∈ (p :: ps).map CPUProfile.endTime ∧
    List.Chain' (· < ·) (0 :: m.timeDeltas) ∧
    m.timeDeltas = (specMergeRun m.startTime (List.insertionSort byStartProf (p :: ps)) 0).1 := by
  have hm : m = mergeProfilesCore p ps := by
    simpa [mergeProfiles] using h.symm
  subst hm
  have hstart : (mergeProfilesCore p ps).startTime =
      (ps.map (fun q => q.startTime)).foldl min p.startTime := rfl
  have hend : (mergeProfilesCore p ps).endTime =
      (ps.map (fun q => q.endTime)).foldl max p.endTime := rfl
  have htds : (mergeProfilesCore p ps).timeDeltas =
      ((List.insertionSort byStartProf (p :: ps)).foldl (mergeOne
        ((ps.map (fun q => q.startTime)).foldl min p.startTime))
        initMergeState).timeDeltas := rfl
  refine ⟨?_, ?_, ?_, ?_, ?_, ?_⟩
  · intro q hq
    rw [hstart]
    rcases List.mem_cons.mp hq with rfl | hq'
    · exact foldl_min_le_init _ _
    · exact foldl_min_le_mem _ _ q.startTime (List.mem_map_of_mem _ hq')
  · rw [hstart]
    rcases foldl_min_mem (ps.map (fun q => q.startTime)) p.startTime with h' | h'
    · rw [h']; exact List.mem_cons_self _ _
    · refine List.mem_cons_of_mem _ ?_
      simpa using h'
  · intro q hq
    rw [hend]
    rcases List.mem_cons.mp hq with rfl | hq'
    · exact le_foldl_max_init _ _
    · exact le_foldl_max_mem _ _ q.endTime (List.mem_map_of_mem _ hq')
  · rw [hend]
    rcases foldl_max_mem (ps.map (fun q => q.endTime)) p.endTime with h' | h'
    · rw [h']; exact List.mem_cons_self _ _
    · refine List.mem_cons_of_mem _ ?_
      simpa using h'
  · rw [htds]
    have hinv : MergeInv initMergeState := ⟨by simp [initMergeState], by simp [initMergeState], le_refl 0⟩
    exact (foldl_mergeOne_inv _ _ _ hinv).1
  · rw [htds, hstart]
    have := (foldl_mergeOne_run ((ps.map (fun q => q.startTime)).foldl min p.startTime)
      (List.insertionSort byStartProf (p :: ps)) initMergeState).1
    simpa [initMergeState] using this

/-- A concrete one-sample profile used by witnesses. -/
def witProfileC2 : CPUProfile :=
  { nodes := [], samples := [5], timeDeltas := [7], startTime := 10, endTime := 20 }

/-- Witness for C2 at a concrete one-profile merge. -/
theorem claim_C2_witness :
    (∀ q ∈ [witProfileC2], witProfileC2.startTime ≤ q.startTime) ∧
    witProfileC2.startTime ∈ ([witProfileC2].map CPUProfile.startTime) ∧
    List.Chain' (· < ·) (0 :: witProfileC2.timeDeltas) := by
  have h := claim_C2 witProfileC2 [] witProfileC2 (by rfl)
  exact ⟨h.1, h.2.1, h.2.2.2.2.1⟩

/-! ## Claim C3 -/

/-- C3: merging two profiles yields exactly the two sample lists concatenated
after node-id remapping — the earlier-starting profile's samples first, each
source's samples in their original relative order — so the merged sample count
is the sum of the input counts. -/
theorem claim_C3 (P1 P2 m : CPUProfile)
    (h : mergeProfiles [P1, P2] = Except.ok m) :
    m.samples.length = P1.samples.length + P2.samples.length ∧
    ((byStartProf P1 P2 ∧
      m.samples = P1.samples.map (remapSample 0 P1.nodes) ++
        P2.samples.map (remapSample P1.nodes.length P2.nodes)) ∨
     (¬ byStartProf P1 P2 ∧
      m.samples = P2.samples.map (remapSample 0 P2.nodes) ++
        P1.samples.map (remapSample P2.nodes.length P1.nodes))) := by
  have hm : m = mergeProfilesCore P1 [P2] := by
    simpa [mergeProfiles] using h.symm
  subst hm
  by_cases hle : byStartProf P1 P2
  · have hsort : List.insertionSort byStartProf [P1, P2] = [P1, P2] := by
      simp [List.insertionSort, List.orderedInsert, hle]
    have hsamp : (mergeProfilesCore P1 [P2]).samples =
        P1.samples.map (remapSample 0 P1.nodes) ++
          P2.samples.map (remapSample P1.nodes.length P2.nodes) := by
      show ((List.insertionSort byStartProf [P1, P2]).foldl (mergeOne _)
        initMergeState).samples = _
      rw [hsort]
      simp only [List.foldl_cons, List.foldl_nil]
      rw [mergeOne_samples, mergeOne_samples, mergeOne_offset]
      simp [initMergeState]
    refine ⟨by simp [hsamp], Or.inl ⟨hle, hsamp⟩⟩
  · have hsort : List.insertionSort byStartProf [P1, P2] = [P2, P1] := by
      simp [List.insertionSort, List.orderedInsert, hle]
    have hsamp : (mergeProfilesCore P1 [P2]).samples =
        P2.samples.map (remapSample 0 P2.nodes) ++
          P1.samples.map (remapSample P2.nodes.length P1.nodes) := by
      show ((List.insertionSort byStartProf [P1, P2]).foldl (mergeOne _)
        initMergeState).samples = _
      rw [hsort]
      simp only [List.foldl_cons, List.foldl_nil]
      rw [mergeOne_samples, mergeOne_samples, mergeOne_offset]
      simp [initMergeState]
    refine ⟨by simp [hsamp, Nat.add_comm], Or.inr ⟨hle, hsamp⟩⟩

/-- Witness for C3 at two concrete single-sample profiles with disjoint
wall-clock ranges. -/
theorem claim_C3_witness :
    (mergeProfilesCore
      { nodes := [], samples := [4], timeDeltas := [1], startTime := 0, endTime := 5 }
      [{ nodes := [], samples := [9], timeDeltas := [2], startTime := 6, endTime := 8 }]).samples.length = 2 := by
  have h := claim_C3
    { nodes := [], samples := [4], timeDeltas := [1], startTime := 0, endTime := 5 }
    { nodes := [], samples := [9], timeDeltas := [2], startTime := 6, endTime := 8 }
    (mergeProfilesCore
      { nodes := [], samples := [4], timeDeltas := [1], startTime := 0, endTime := 5 }
      [{ nodes := [], samples := [9], timeDeltas := [2], startTime := 6, endTime := 8 }])
    (by rfl)
  simpa using h.1

/-! ## Claim C9 -/

theorem addWorker_lengths (st : GenState) (d : WorkerPerformanceData) (wid : String) :
    (addWorkerPerformanceData st d wid).samples.length = st.samples.length + 1 ∧
    (addWorkerPerformanceData st d wid).timeDeltas.length = st.timeDeltas.length + 1 := by
  unfold addWorkerPerformanceData
  cases h : assocLookup st.nodeMap (workerNodeKey wid d.functionName) <;>
    simp [h, (getScriptId_fields st (workerThreadName wid ++ "://" ++ d.functionName)).1,
      (getScriptId_fields st (workerThreadName wid ++ "://" ++ d.functionName)).2]

theorem foldl_addWorker_lens (wid : String) (wd : List WorkerPerformanceData) :
    ∀ st : GenState, st.samples.length = st.timeDeltas.length →
      (wd.foldl (fun st d => addWorkerPerformanceData st d wid) st).samples.length =
        (wd.foldl (fun st d => addWorkerPerformanceData st d wid) st).timeDeltas.length := by
  induction wd with
  | nil => intro st h; exact h
  | cons d rest ih =>
    intro st h
    refine ih (addWorkerPerformanceData st d wid) ?_
    have := addWorker_lengths st d wid
    omega

/-- C9: every profile built by `generateFromTrace`, by
`generateFromSingleWorkerData`, or by `mergeProfiles` has exactly as many
`samples` as `timeDeltas`; skipped malformed trace samples contribute to
neither array. -/
theorem claim_C9 :
    (∀ (tr : Option ProfilerTrace) (startTime endTime : Int) (tn : String) (p : CPUProfile),
      generateFromTrace tr startTime endTime tn = Except.ok p →
      p.samples.length = p.timeDeltas.length) ∧
    (∀ wd (startTime endTime : Int) wid,
      ((generateFromSingleWorkerData wd startTime endTime wid).1).samples.length =
        ((generateFromSingleWorkerData wd startTime endTime wid).1).timeDeltas.length) ∧
    (∀ (ps : List CPUProfile) (m : CPUProfile), mergeProfiles ps = Except.ok m →
      m.samples.length = m.timeDeltas.length) := by
  refine ⟨?_, ?_, ?_⟩
  · intro tr startTime endTime tn p hok
    cases tr with
    | none =>
      simp only [generateFromTrace] at hok
      cases hok
      rfl
    | some t =>
      simp only [generateFromTrace] at hok
      split at hok
      case h_2 =>
        cases hok
        rfl
      case h_1 samplesArr stackA hs hst =>
        split at hok
        case h_1 => exact absurd hok (by simp)
        case h_2 st2 hp =>
          cases hok
          have hchar := processSamples_ok tn (t.frames.getD []) stackA startTime
            samplesArr _ st2 hp
          have hbase := internFrames_fields tn (t.frames.getD []) (initState startTime)
          show st2.samples.length = st2.timeDeltas.length
          rw [hchar.2, hchar.1, hbase.1, hbase.2]
          simp [initState]
  · intro wd startTime endTime wid
    show (List.foldl _ (initState startTime) _).samples.length =
      (normalizeTimeDeltas (List.foldl _ (initState startTime) _).timeDeltas).length
    rw [show normalizeTimeDeltas = normGo 0 from rfl, normGo_length]
    exact foldl_addWorker_lens wid _ (initState startTime) rfl
  · intro ps m hok
    cases ps with
    | nil => simp [mergeProfiles] at hok
    | cons p ps' =>
      have hm : m = mergeProfilesCore p ps' := by
        simpa [mergeProfiles] using hok.symm
      subst hm
      exact foldl_mergeOne_lens _ _ _ rfl

/-- Witness for C9 on the concrete in-order trace. -/
theorem claim_C9_witness : witProfileC1.samples.length = witProfileC1.timeDeltas.length :=
  claim_C9.1 (some witTraceC1) 0 20 "Main Thread" witProfileC1 (by rfl)

/-! ## Claim C7 -/

theorem getScriptId_nodeMap (st : GenState) (url : String) :
    ((getScriptId st url).2).nodeMap = st.nodeMap := by
  unfold getScriptId
  cases h : assocLookup st.scriptMap url <;> simp [h]

theorem incrementFirst_length : ∀ (ns : List ProfileNode) (id : Nat),
    (incrementFirst ns id).length = ns.length := by
  intro ns
  induction ns with
  | nil => intro id; rfl
  | cons n rest ih =>
    intro id
    unfold incrementFirst
    by_cases h : n.id = id <;> simp [h, ih]

theorem addWorker_samples (st : GenState) (d : WorkerPerformanceData) (wid : String) :
    (addWorkerPerformanceData st d wid).samples =
      st.samples ++ [resolveWorkerId st wid d.functionName] := by
  unfold addWorkerPerformanceData resolveWorkerId
  cases h : assocLookup st.nodeMap (workerNodeKey wid d.functionName) <;>
    simp [h, (getScriptId_fields st (workerThreadName wid ++ "://" ++ d.functionName)).1]

theorem addWorker_lookup (st : GenState) (d : WorkerPerformanceData) (wid : String) :
    assocLookup (addWorkerPerformanceData st d wid).nodeMap
        (workerNodeKey wid d.functionName) =
      some (resolveWorkerId st wid d.functionName) := by
  unfold addWorkerPerformanceData resolveWorkerId
  cases h : assocLookup st.nodeMap (workerNodeKey wid d.functionName) with
  | some id => simp [h]
  | none => simp [h, assocLookup]

theorem addWorker_preserve (st : GenState) (d : WorkerPerformanceData) (wid : String)
    (k : String) (v : Nat) (h : assocLookup st.nodeMap k = some v) :
    assocLookup (addWorkerPerformanceData st d wid).nodeMap k = some v := by
  unfold addWorkerPerformanceData
  cases hx : assocLookup st.nodeMap (workerNodeKey wid d.functionName) with
  | some id => simpa [hx] using h
  | none =>
    have hnm := getScriptId_nodeMap st (workerThreadName wid ++ "://" ++ d.functionName)
    by_cases hk : workerNodeKey wid d.functionName = k
    · rw [hk] at hx; rw [hx] at h; cases h
    · simp [hx, assocLookup, hk, hnm, h]

theorem foldl_addWorker_preserve (wid : String) (mid : List WorkerPerformanceData) :
    ∀ (st : GenState) (k : String) (v : Nat), assocLookup st.nodeMap k = some v →
      assocLookup ((mid.foldl (fun s d => addWorkerPerformanceData s d wid) st)).nodeMap k =
        some v := by
  induction mid with
  | nil => intro st k v h; exact h
  | cons d rest ih =>
    intro st k v h
    exact ih (addWorkerPerformanceData st d wid) k v (addWorker_preserve st d wid k v h)

theorem addWorker_nodes_len_hit (st : GenState) (d : WorkerPerformanceData)
    (wid : String) (id : Nat)
    (h : assocLookup st.nodeMap (workerNodeKey wid d.functionName) = some id) :
    (addWorkerPerformanceData st d wid).nodes.length = st.nodes.length := by
  unfold addWorkerPerformanceData
  simp [h, incrementFirst_length]

theorem getOrCreateNode_lookup (st : GenState) (f : TraceFrame) (tn : String) :
    assocLookup ((getOrCreateNode st f tn).2).nodeMap (traceNodeKey f tn) =
      some (getOrCreateNode st f tn).1 := by
  unfold getOrCreateNode
  cases h : assocLookup st.nodeMap (traceNodeKey f tn) with
  | some id => simp [h]
  | none => simp [h, assocLookup]

/-- C7: interning is idempotent within one generation run. For the worker
path, a record appends its key's resolved node id to `samples`; a later record
with the same identity key (same `workerId`, same `functionName`; the source
location of a worker node is the constant `0::0`) appends exactly the same
node id — even with other records processed in between — and its processing
adds no node. For the trace path, re-interning a frame with the same dedup key
returns the same node id and leaves the node list unchanged. -/
theorem claim_C7 (st : GenState) (d1 d2 : WorkerPerformanceData)
    (mid : List WorkerPerformanceData) (wid : String)
    (hfn : d1.functionName = d2.functionName) :
    (addWorkerPerformanceData st d1 wid).samples =
      st.samples ++ [resolveWorkerId st wid d1.functionName] ∧
    (addWorkerPerformanceData
        (mid.foldl (fun s d => addWorkerPerformanceData s d wid)
          (addWorkerPerformanceData st d1 wid)) d2 wid).samples =
      (mid.foldl (fun s d => addWorkerPerformanceData s d wid)
          (addWorkerPerformanceData st d1 wid)).samples ++
        [resolveWorkerId st wid d1.functionName] ∧
    (addWorkerPerformanceData
        (mid.foldl (fun s d => addWorkerPerformanceData s d wid)
          (addWorkerPerformanceData st d1 wid)) d2 wid).nodes.length =
      (mid.foldl (fun s d => addWorkerPerformanceData s d wid)
        (addWorkerPerformanceData st d1 wid)).nodes.length ∧
    ∀ (f1 f2 : TraceFrame) (tn : String),
      traceNodeKey f1 tn = traceNodeKey f2 tn →
      (getOrCreateNode ((getOrCreateNode st f1 tn).2) f2 tn).1 =
        (getOrCreateNode st f1 tn).1 ∧
      ((getOrCreateNode ((getOrCreateNode st f1 tn).2) f2 tn).2).nodes.length =
        ((getOrCreateNode st f1 tn).2).nodes.length := by
  have h1 := addWorker_lookup st d1 wid
  have h2 := foldl_addWorker_preserve wid mid (addWorkerPerformanceData st d1 wid)
    (workerNodeKey wid d1.functionName) (resolveWorkerId st wid d1.functionName) h1
  have hres : resolveWorkerId
      (mid.foldl (fun s d => addWorkerPerformanceData s d wid)
        (addWorkerPerformanceData st d1 wid)) wid d2.functionName =
      resolveWorkerId st wid d1.functionName := by
    unfold resolveWorkerId
    rw [← hfn, h2]
    rfl
  refine ⟨addWorker_samples st d1 wid, ?_, ?_, ?_⟩
  · rw [addWorker_samples, hres]
  · refine addWorker_nodes_len_hit _ d2 wid (resolveWorkerId st wid d1.functionName) ?_
    rw [← hfn]
    exact h2
  · intro f1 f2 tn hkey
    have hl := getOrCreateNode_lookup st f1 tn
    rw [hkey] at hl
    constructor
    · conv_lhs => rw [getOrCreateNode]
      rw [hl]
    · conv_lhs => rw [getOrCreateNode]
      rw [hl]

/-- Concrete inputs for the C7 witness. -/
def witStC7 : GenState := initState 0

/-- First occurrence of the interned function. -/
def witD1 : WorkerPerformanceData :=
  { workerId := "w", functionName := "f", startTime := 1, endTime := 2 }

/-- Second occurrence of the interned function, after an unrelated record. -/
def witD2 : WorkerPerformanceData :=
  { workerId := "w", functionName := "f", startTime := 5, endTime := 6 }

/-- An unrelated record processed between the two occurrences. -/
def witMid : List WorkerPerformanceData :=
  [{ workerId := "w", functionName := "g", startTime := 3, endTime := 4 }]

/-- Witness for C7 at the concrete inputs. -/
theorem claim_C7_witness :
    (addWorkerPerformanceData witStC7 witD1 "w").samples =
      witStC7.samples ++ [resolveWorkerId witStC7 "w" witD1.functionName] ∧
    (addWorkerPerformanceData
        (witMid.foldl (fun s d => addWorkerPerformanceData s d "w")
          (addWorkerPerformanceData witStC7 witD1 "w")) witD2 "w").samples =
      (witMid.foldl (fun s d => addWorkerPerformanceData s d "w")
          (addWorkerPerformanceData witStC7 witD1 "w")).samples ++
        [resolveWorkerId witStC7 "w" witD1.functionName] ∧
    (addWorkerPerformanceData
        (witMid.foldl (fun s d => addWorkerPerformanceData s d "w")
          (addWorkerPerformanceData witStC7 witD1 "w")) witD2 "w").nodes.length =
      (witMid.foldl (fun s d => addWorkerPerformanceData s d "w")
        (addWorkerPerformanceData witStC7 witD1 "w")).nodes.length := by
  have h := claim_C7 witStC7 witD1 witD2 witMid "w" (by rfl)
  exact ⟨h.1, h.2.1, h.2.2.1⟩

/-! ## Claim C5 -/

theorem pushPair_eq (ast : Int) (d : WorkerPerformanceData) (fid : Nat)
    (evs : List SpeedEvent) :
    pushPair ast d fid evs = evs ++
      (if emitCond ast d then
        [{ etype := 'O', atTime := (d.startTime - ast) * 1000, frame := fid },
         { etype := 'C', atTime := (d.endTime - ast) * 1000, frame := fid }]
       else []) := by
  by_cases hc : emitCond ast d <;> simp [pushPair, hc]

theorem evStep_events (ctx : EvContext) (st : EvState) (d : WorkerPerformanceData) :
    ∃ fid, (evStep ctx st d).events = st.events ++
      (if emitCond ctx.actualStartTime d then
        [{ etype := 'O', atTime := (d.startTime - ctx.actualStartTime) * 1000, frame := fid },
         { etype := 'C', atTime := (d.endTime - ctx.actualStartTime) * 1000, frame := fid }]
       else []) := by
  cases h1 : assocLookup st.fnMap d.functionName with
  | some fid =>
    refine ⟨fid, ?_⟩
    simp only [evStep, h1]
    exact pushPair_eq ctx.actualStartTime d fid st.events
  | none =>
    cases h2 : sampleSearch ctx d.functionName ctx.profileSamples with
    | some fid =>
      refine ⟨fid, ?_⟩
      simp only [evStep, h1, h2]
      exact pushPair_eq ctx.actualStartTime d fid st.events
    | none =>
      refine ⟨st.frames.length, ?_⟩
      simp only [evStep, h1, h2]
      exact pushPair_eq ctx.actualStartTime d st.frames.length st.events

/-- Well-formed evented output: a sequence of consecutive open/close pairs,
each pair sharing its frame, opening at a non-negative time and closing no
earlier than it opens. -/
inductive PairsWF : List SpeedEvent → Prop where
  | nil : PairsWF []
  | cons (o c : SpeedEvent) (rest : List SpeedEvent) :
      o.etype = 'O' → c.etype = 'C' → o.frame = c.frame →
      0 ≤ o.atTime → o.atTime ≤ c.atTime →
      PairsWF rest → PairsWF (o :: c :: rest)

theorem PairsWF.append_pair {l : List SpeedEvent} (h : PairsWF l)
    (o c : SpeedEvent) (h1 : o.etype = 'O') (h2 : c.etype = 'C')
    (h3 : o.frame = c.frame) (h4 : 0 ≤ o.atTime) (h5 : o.atTime ≤ c.atTime) :
    PairsWF (l ++ [o, c]) := by
  induction h with
  | nil => exact PairsWF.cons o c [] h1 h2 h3 h4 h5 PairsWF.nil
  | cons o' c' rest g1 g2 g3 g4 g5 _ ih =>
    exact PairsWF.cons o' c' (rest ++ [o, c]) g1 g2 g3 g4 g5 ih

theorem pairsWF_nonneg {l : List SpeedEvent} (h : PairsWF l) :
    ∀ e ∈ l, 0 ≤ e.atTime := by
  induction h with
  | nil => simp
  | cons o c rest h1 h2 h3 h4 h5 _ ih =>
    intro e he
    rcases List.mem_cons.mp he with rfl | he'
    · exact h4
    · rcases List.mem_cons.mp he' with rfl | he''
      · exact le_trans h4 h5
      · exact ih e he''

theorem evFold_pairs (ctx : EvContext) :
    ∀ (wd : List WorkerPerformanceData) (st : EvState), PairsWF st.events →
      PairsWF ((wd.foldl (evStep ctx) st).events) := by
  intro wd
  induction wd with
  | nil => intro st h; exact h
  | cons d rest ih =>
    intro st h
    refine ih (evStep ctx st d) ?_
    obtain ⟨fid, he⟩ := evStep_events ctx st d
    rw [he]
    by_cases hc : emitCond ctx.actualStartTime d
    · rw [if_pos hc]
      exact h.append_pair _ _ rfl rfl rfl hc.1 hc.2
    · rw [if_neg hc, List.append_nil]
      exact h

theorem evFold_count (ctx : EvContext) :
    ∀ (wd : List WorkerPerformanceData) (st : EvState),
      ((wd.foldl (evStep ctx) st).events).length = st.events.length +
        2 * (wd.filter (fun d => decide (emitCond ctx.actualStartTime d))).length := by
  intro wd
  induction wd with
  | nil => intro st; simp
  | cons d rest ih =>
    intro st
    rw [List.foldl_cons, ih (evStep ctx st d)]
    obtain ⟨fid, he⟩ := evStep_events ctx st d
    rw [he]
    by_cases hc : emitCond ctx.actualStartTime d
    · rw [if_pos hc]
      simp [List.filter_cons, hc]
      omega
    · rw [if_neg hc, List.append_nil]
      simp [List.filter_cons, hc]

/-- C5: in the evented path, each worker record resolves to a frame id and
contributes an open event at `(startTime - actualStartTime) * 1000` and a
close event at `(endTime - actualStartTime) * 1000` exactly when the open time
is non-negative and the close time does not precede it; otherwise the pair is
dropped. Consequently the event list is a sequence of well-formed open/close
pairs, holds two events per valid record, and the sorted track contains no
event at a negative time and is ascending by time. -/
theorem claim_C5 (ctx : EvContext) (st0 : EvState) (wd : List WorkerPerformanceData)
    (h0 : st0.events = []) :
    (∀ (st : EvState) (d : WorkerPerformanceData), ∃ fid,
      (evStep ctx st d).events = st.events ++
        (if emitCond ctx.actualStartTime d then
          [{ etype := 'O', atTime := (d.startTime - ctx.actualStartTime) * 1000, frame := fid },
           { etype := 'C', atTime := (d.endTime - ctx.actualStartTime) * 1000, frame := fid }]
         else [])) ∧
    PairsWF ((wd.foldl (evStep ctx) st0).events) ∧
    ((wd.foldl (evStep ctx) st0).events).length =
      2 * (wd.filter (fun d => decide (emitCond ctx.actualStartTime d))).length ∧
    (∀ e ∈ eventedTrackEvents ctx st0 wd, 0 ≤ e.atTime) ∧
    List.Sorted byAt (eventedTrackEvents ctx st0 wd) := by
  have hwf : PairsWF ((wd.foldl (evStep ctx) st0).events) := by
    refine evFold_pairs ctx wd st0 ?_
    rw [h0]
    exact PairsWF.nil
  refine ⟨fun st d => evStep_events ctx st d, hwf, ?_, ?_, ?_⟩
  · rw [evFold_count ctx wd st0, h0]
    simp
  · intro e he
    have hmem : e ∈ (wd.foldl (evStep ctx) st0).events :=
      (List.mem_insertionSort byAt).mp he
    exact pairsWF_nonneg hwf e hmem
  · exact List.sorted_insertionSort byAt _

/-- Concrete evented-loop context for the C5 witness. -/
def witCtxC5 : EvContext :=
  { profileNodes := [], profileSamples := [], threadMap := [],
    threadTag := "[web-worker-0] ", workerId := "w", actualStartTime := 0 }

/-- Fresh per-worker loop state for the C5 witness. -/
def witStC5 : EvState := { frames := [], frameMap := [], fnMap := [], events := [] }

/-- One valid record and one record closing before it opens. -/
def witWdC5 : List WorkerPerformanceData :=
  [{ workerId := "w", functionName := "f", startTime := 1, endTime := 2 },
   { workerId := "w", functionName := "g", startTime := 5, endTime := 3 }]

/-- Witness for C5 at the concrete inputs. -/
theorem claim_C5_witness :
    PairsWF ((witWdC5.foldl (evStep witCtxC5) witStC5).events) ∧
    ((witWdC5.foldl (evStep witCtxC5) witStC5).events).length =
      2 * (witWdC5.filter
        (fun d => decide (emitCond witCtxC5.actualStartTime d))).length ∧
    List.Sorted byAt (eventedTrackEvents witCtxC5 witStC5 witWdC5) := by
  have h := claim_C5 witCtxC5 witStC5 witWdC5 (by rfl)
  exact ⟨h.2.1, h.2.2.1, h.2.2.2.2⟩

end PerfMonitor
